import Mathlib

/-!
Verification of the ntex HTTP/2 adapter layer and the ntex-http header-value
utilities against their natural-language specification.

The embedding follows the sources:
  * `src/ntex/src/http/h2/service.rs` — the stream publish handler
    (`PublishService::call`) and the response-header preparer
    (`prepare_response`);
  * `src/ntex-http/src/headers/caching.rs` — `Age` and `CacheControl`;
  * `src/ntex-http/src/headers/content_negotiation.rs` — `Quality`.

Machine integers are modelled as `Nat` (the values involved never overflow in
the modelled paths; where a bound matters, such as the `u64` parse in `Age`,
it appears explicitly). Byte strings are `List Nat`; header names and values
are `String` with lower-case canonical names.
-/

namespace NtexH2

/-! ## Header map

The `HeaderMap` used by `prepare_response` lives outside the provided sources;
it is modelled as an association list with the `http`-crate semantics the code
relies on: `insert` replaces every existing value for the name, `remove`
removes them all, `contains_key`/lookup observe the current value. -/

abbrev HeaderMap := List (String × String)

def contentLengthN : String := "content-length"

def connectionN : String := "connection"

def transferEncodingN : String := "transfer-encoding"

def dateN : String := "date"

def hremove : HeaderMap → String → HeaderMap
  | [], _ => []
  | p :: t, k => if p.1 = k then hremove t k else p :: hremove t k

def hinsert (m : HeaderMap) (k v : String) : HeaderMap :=
  (k, v) :: hremove m k

def hlookup : HeaderMap → String → Option String
  | [], _ => none
  | p :: t, k => if p.1 = k then some p.2 else hlookup t k

def hcontains (m : HeaderMap) (k : String) : Bool :=
  (hlookup m k).isSome

/-! ## Body size -/

/-- Modelled from the spec: the `BodySize` classification `{None, Empty,
Sized(byteCount), Stream}` of §3; the body module defining the Rust enum is
not among the provided sources. -/
inductive BodySize where
  | none
  | empty
  | sized (n : Nat)
  | stream
deriving DecidableEq, Repr

/-- Modelled from the spec: the headers frame carries
`endStream = (size is None/Empty/terminal) or method==HEAD` (§4.1); this is
the `BodySize::is_eof` test used by `PublishService::call`, whose defining
module is not among the provided sources. -/
def BodySize.is_eof : BodySize → Bool
  | .none => true
  | .empty => true
  | _ => false

/-! ## Response head and `prepare_response`

Embedding of `prepare_response` from `src/ntex/src/http/h2/service.rs`
(lines 436-478). The Rust function mutates `head` and `size` in place; the
embedding threads that state explicitly and additionally returns the final
value of the local `skip_len` flag. `date` stands for the string the cached
`DateService` writes for the current second. -/

structure ResponseHead where
  status : Nat
  headers : HeaderMap
deriving DecidableEq, Repr

/-- The unconditional tail of `prepare_response`: remove `connection` and
`transfer-encoding`, then insert a `date` header when none is present
(lines 466-477). -/
def finish_headers (date : String) (m : HeaderMap) : HeaderMap :=
  let m1 := hremove m connectionN
  let m2 := hremove m1 transferEncodingN
  if hcontains m2 dateN then m2 else hinsert m2 dateN date

/-- Embedding of `prepare_response` (lines 436-464 plus the tail). The match
on `head.status` has the arms 204 | 100 | 102 (size forced to `None`),
101 (skip-length marked, size forced to `Stream`, content-length removed),
and a default arm; then the content-length header is written from the
resulting size. Returns (updated head, updated size, final `skip_len`). -/
def prepare_response_full (date : String) (head : ResponseHead) (size : BodySize) :
    ResponseHead × BodySize × Bool :=
  let skip0 : Bool := size = BodySize.stream
  let skip1 : Bool := if head.status = 101 then true else skip0
  let size1 :=
    if head.status = 204 ∨ head.status = 100 ∨ head.status = 102 then BodySize.none
    else if head.status = 101 then BodySize.stream
    else size
  let hdrs1 := if head.status = 101 then hremove head.headers contentLengthN else head.headers
  let hdrs2 :=
    match size1 with
    | BodySize.none => hdrs1
    | BodySize.stream => hdrs1
    | BodySize.empty => hinsert hdrs1 contentLengthN "0"
    | BodySize.sized n =>
        if skip1 then hdrs1 else hinsert hdrs1 contentLengthN (toString n)
  (⟨head.status, finish_headers date hdrs2⟩, size1, skip1)

def prepare_response (date : String) (head : ResponseHead) (size : BodySize) :
    ResponseHead × BodySize :=
  ((prepare_response_full date head size).1, (prepare_response_full date head size).2.1)

/-! ## Basic header-map lemmas -/

theorem hlookup_hremove (m : HeaderMap) (k k' : String) :
    hlookup (hremove m k') k = if k = k' then none else hlookup m k := by
  induction m with
  | nil => simp only [hremove, hlookup]; split <;> rfl
  | cons p t ih =>
    by_cases h1 : p.1 = k' <;> by_cases h2 : k = k' <;> by_cases h3 : p.1 = k <;>
      simp_all [hremove, hlookup]

theorem hlookup_hinsert (m : HeaderMap) (k k' v : String) :
    hlookup (hinsert m k' v) k = if k = k' then some v else hlookup m k := by
  by_cases h : k = k' <;> simp [hinsert, hlookup, hlookup_hremove, h]
  exact fun h' => absurd h'.symm h

theorem hlookup_finish_headers_cl (date : String) (m : HeaderMap) :
    hlookup (finish_headers date m) contentLengthN = hlookup m contentLengthN := by
  simp only [finish_headers]
  split
  · rw [hlookup_hremove, hlookup_hremove]
    simp [contentLengthN, transferEncodingN, connectionN]
  · rw [hlookup_hinsert, hlookup_hremove, hlookup_hremove]
    simp [contentLengthN, transferEncodingN, connectionN, dateN]

/-! ## Claims C2, C3, C4 — `prepare_response` -/

/-- C2 as stated fails on the code: for status 204 with a preexisting
`content-length: 5` header and producer-reported size `Sized 5`, the size is
forced to `None` but the stale content-length header survives
(`prepare_response` removes content-length only in the 101 arm). -/
theorem c2_counterexample :
    (prepare_response "d" ⟨204, [(contentLengthN, "5")]⟩ (BodySize.sized 5)).2
        = BodySize.none ∧
      hlookup (prepare_response "d" ⟨204, [(contentLengthN, "5")]⟩
          (BodySize.sized 5)).1.headers contentLengthN = some "5" := by
  constructor <;> rfl

/-- C2 (amended): for status 204, 100 or 102 the resulting size is `None`
regardless of the producer-reported size, and the content-length entry of the
header map is exactly what it was before the call — in particular it is
absent whenever it was not already present. -/
theorem c2_informational_size_none (date : String) (head : ResponseHead)
    (size : BodySize) (h : head.status = 204 ∨ head.status = 100 ∨ head.status = 102) :
    (prepare_response date head size).2 = BodySize.none ∧
      hlookup (prepare_response date head size).1.headers contentLengthN
        = hlookup head.headers contentLengthN := by
  have h101 : ¬ head.status = 101 := by rcases h with h | h | h <;> omega
  constructor
  · simp [prepare_response, prepare_response_full, h]
  · simp only [prepare_response, prepare_response_full, if_pos h, if_neg h101]
    exact hlookup_finish_headers_cl date head.headers

theorem c2_informational_size_none_witness :
    (prepare_response "d" ⟨204, []⟩ (BodySize.sized 7)).2 = BodySize.none ∧
      hlookup (prepare_response "d" ⟨204, []⟩ (BodySize.sized 7)).1.headers contentLengthN
        = hlookup ([] : HeaderMap) contentLengthN :=
  c2_informational_size_none "d" ⟨204, []⟩ (BodySize.sized 7) (Or.inl rfl)

/-- C3 as stated fails on the code: a 200 response with original size `Stream`
and a preexisting `content-length: 7` header keeps that header after
`prepare_response` even though the resulting size is `Stream` (the code merely
refrains from inserting content-length for `None`/`Stream`; it removes it only
in the 101 arm). -/
theorem c3_counterexample :
    (prepare_response "d" ⟨200, [(contentLengthN, "7")]⟩ BodySize.stream).2
        = BodySize.stream ∧
      hlookup (prepare_response "d" ⟨200, [(contentLengthN, "7")]⟩
          BodySize.stream).1.headers contentLengthN = some "7" := by
  constructor <;> rfl

/-- C3 (amended): after `prepare_response`, skip-length is marked exactly when
the original size was `Stream` or the status is 101; the content-length header
equals "0" when the resulting size is `Empty` and equals the decimal byte
count when the resulting size is `Sized n`; and when the resulting size is
`None` or `Stream` no content-length is inserted — the entry is removed when
the status is 101 and is otherwise left exactly as it was before the call. -/
theorem c3_content_length_rules (date : String) (head : ResponseHead) (size : BodySize) :
    ((prepare_response_full date head size).2.2 = true
        ↔ (size = BodySize.stream ∨ head.status = 101)) ∧
      ((prepare_response date head size).2 = BodySize.empty →
        hlookup (prepare_response date head size).1.headers contentLengthN = some "0") ∧
      (∀ n, (prepare_response date head size).2 = BodySize.sized n →
        hlookup (prepare_response date head size).1.headers contentLengthN
          = some (toString n)) ∧
      (((prepare_response date head size).2 = BodySize.none ∨
          (prepare_response date head size).2 = BodySize.stream) →
        hlookup (prepare_response date head size).1.headers contentLengthN
          = if head.status = 101 then none
            else hlookup head.headers contentLengthN) := by
  by_cases hInfo : head.status = 204 ∨ head.status = 100 ∨ head.status = 102
  · have h101 : ¬ head.status = 101 := by rcases hInfo with h | h | h <;> omega
    refine ⟨?_, ?_, ?_, ?_⟩
    · simp only [prepare_response_full, if_pos hInfo, if_neg h101]
      constructor
      · intro h; left
        by_cases hs : size = BodySize.stream
        · exact hs
        · simp [hs] at h
      · rintro (h | h)
        · simp [h]
        · exact absurd h h101
    · intro h
      simp [prepare_response, prepare_response_full, hInfo] at h
    · intro n h
      simp [prepare_response, prepare_response_full, hInfo] at h
    · intro _
      simp only [prepare_response, prepare_response_full, if_pos hInfo, if_neg h101]
      exact hlookup_finish_headers_cl date head.headers
  · by_cases h101 : head.status = 101
    · refine ⟨?_, ?_, ?_, ?_⟩
      · simp [prepare_response_full, hInfo, h101]
      · intro h
        simp [prepare_response, prepare_response_full, hInfo, h101] at h
      · intro n h
        simp [prepare_response, prepare_response_full, hInfo, h101] at h
      · intro _
        simp only [prepare_response, prepare_response_full, if_neg hInfo, if_pos h101]
        rw [hlookup_finish_headers_cl, hlookup_hremove]
        simp [h101]
    · -- default arm: size is unchanged
      refine ⟨?_, ?_, ?_, ?_⟩
      · simp only [prepare_response_full, if_neg hInfo, if_neg h101]
        constructor
        · intro h
          by_cases hs : size = BodySize.stream
          · exact Or.inl hs
          · simp [hs] at h
        · rintro (h | h)
          · simp [h]
          · exact absurd h h101
      · intro h
        have hsz : size = BodySize.empty := by
          simpa [prepare_response, prepare_response_full, hInfo, h101] using h
        subst hsz
        simp only [prepare_response, prepare_response_full, if_neg hInfo, if_neg h101]
        rw [hlookup_finish_headers_cl, hlookup_hinsert]
        simp
      · intro n h
        have hsz : size = BodySize.sized n := by
          cases size <;>
            · simp only [prepare_response, prepare_response_full, if_neg hInfo,
                if_neg h101] at h
              simp_all
        subst hsz
        simp only [prepare_response, prepare_response_full, if_neg hInfo, if_neg h101,
          decide_eq_true_eq]
        rw [if_neg (by simp [h101])]
        rw [hlookup_finish_headers_cl, hlookup_hinsert]
        simp
      · intro h
        have hsz : size = BodySize.none ∨ size = BodySize.stream := by
          rcases h with h | h
          · simp only [prepare_response, prepare_response_full, if_neg hInfo,
              if_neg h101] at h
            exact Or.inl h
          · simp only [prepare_response, prepare_response_full, if_neg hInfo,
              if_neg h101] at h
            exact Or.inr h
        rw [if_neg h101]
        rcases hsz with hsz | hsz <;> subst hsz <;>
          · simp only [prepare_response, prepare_response_full, if_neg hInfo, if_neg h101]
            exact hlookup_finish_headers_cl date head.headers

theorem c3_content_length_rules_witness :
    hlookup (prepare_response "d" ⟨200, []⟩ (BodySize.sized 5)).1.headers contentLengthN
      = some (toString 5) :=
  ((c3_content_length_rules "d" ⟨200, []⟩ (BodySize.sized 5)).2.2.1) 5 rfl

/-- C4: for status 101, `prepare_response` forces the size to `Stream` and the
resulting header map has no content-length entry, even when one was present
before the call. -/
theorem c4_switching_protocols (date : String) (head : ResponseHead) (size : BodySize)
    (h : head.status = 101) :
    (prepare_response date head size).2 = BodySize.stream ∧
      hlookup (prepare_response date head size).1.headers contentLengthN = none := by
  have hInfo : ¬ (head.status = 204 ∨ head.status = 100 ∨ head.status = 102) := by omega
  constructor
  · simp [prepare_response, prepare_response_full, hInfo, h]
  · simp only [prepare_response, prepare_response_full, if_neg hInfo, if_pos h]
    rw [hlookup_finish_headers_cl, hlookup_hremove]
    simp

theorem c4_switching_protocols_witness :
    (prepare_response "d" ⟨101, [(contentLengthN, "9")]⟩ (BodySize.sized 9)).2
        = BodySize.stream ∧
      hlookup (prepare_response "d" ⟨101, [(contentLengthN, "9")]⟩
          (BodySize.sized 9)).1.headers contentLengthN = none :=
  c4_switching_protocols "d" ⟨101, [(contentLengthN, "9")]⟩ (BodySize.sized 9) rfl

/-! ## Claim C1 — response emission

Embedding of the response-emission tail of `PublishService::call`
(lines 395-431). The outgoing frames are modelled as a trace of `Send`
events; `send_response` and `send_payload` of the per-stream handle append to
that trace. The response body producer is modelled as the list of chunks its
successive `poll_next_chunk` calls yield before returning `None`; a chunk is
a byte list. -/

inductive Send where
  | response (status : Nat) (headers : HeaderMap) (endStream : Bool)
  | payload (bytes : List Nat) (endStream : Bool)
deriving DecidableEq, Repr

/-- The `loop` of lines 407-429: every produced chunk is sent as a payload
frame with `endStream = false` unless it is empty (empty chunks are skipped);
when the producer is exhausted an empty payload frame with
`endStream = true` is sent. -/
def send_body_loop : List (List Nat) → List Send
  | [] => [Send.payload [] true]
  | c :: rest =>
      if c.isEmpty then send_body_loop rest
      else Send.payload c false :: send_body_loop rest

/-- Embedding of lines 395-431: prepare the response head, then either send a
lone headers frame with `endStream = true` (when the prepared size `is_eof`
or the request method was HEAD) or send the headers frame with
`endStream = false` followed by the body loop. -/
def publishResponse (date : String) (head : ResponseHead) (size : BodySize)
    (is_head_req : Bool) (chunks : List (List Nat)) : List Send :=
  let pr := prepare_response date head size
  if pr.2.is_eof || is_head_req then
    [Send.response pr.1.status pr.1.headers true]
  else
    Send.response pr.1.status pr.1.headers false :: send_body_loop chunks

theorem send_body_loop_eq (chunks : List (List Nat)) :
    send_body_loop chunks =
      (chunks.filter (fun c => !c.isEmpty)).map (fun c => Send.payload c false)
        ++ [Send.payload [] true] := by
  induction chunks with
  | nil => rfl
  | cons c rest ih =>
    by_cases h : c.isEmpty <;> simp [send_body_loop, h, ih]

/-- C1: the headers frame is sent with `endStream = true` exactly when the
prepared size is `None` or `Empty` or the method is HEAD, and then it is the
only send; otherwise the trace is the headers frame with `endStream = false`,
every non-empty chunk in production order as a payload frame with
`endStream = false` (empty chunks suppressed), and one final empty payload
frame with `endStream = true`. The last conjunct is the end-to-end instance:
a 200 response with `Sized 5` body "hello" (bytes 104 101 108 108 111) yields
exactly headers(content-length "5", endStream false), payload("hello",
endStream false), payload(empty, endStream true). -/
theorem c1_response_emission (date : String) (head : ResponseHead) (size : BodySize)
    (is_head_req : Bool) (chunks : List (List Nat)) :
    (((prepare_response date head size).2.is_eof || is_head_req) = true ↔
        ((prepare_response date head size).2 = BodySize.none ∨
          (prepare_response date head size).2 = BodySize.empty ∨ is_head_req = true)) ∧
      (((prepare_response date head size).2.is_eof || is_head_req) = true →
        publishResponse date head size is_head_req chunks =
          [Send.response (prepare_response date head size).1.status
            (prepare_response date head size).1.headers true]) ∧
      (((prepare_response date head size).2.is_eof || is_head_req) = false →
        publishResponse date head size is_head_req chunks =
          Send.response (prepare_response date head size).1.status
              (prepare_response date head size).1.headers false ::
            ((chunks.filter (fun c => !c.isEmpty)).map (fun c => Send.payload c false)
              ++ [Send.payload [] true])) ∧
      (∃ hs, publishResponse "D" ⟨200, []⟩ (BodySize.sized 5) false
            [[104, 101, 108, 108, 111]] =
          [Send.response 200 hs false,
            Send.payload [104, 101, 108, 108, 111] false, Send.payload [] true] ∧
          hlookup hs contentLengthN = some "5") := by
  refine ⟨?_, ?_, ?_, ?_⟩
  · cases h : (prepare_response date head size).2 <;>
      cases is_head_req <;> simp [BodySize.is_eof]
  · intro h
    simp only [publishResponse]
    rw [if_pos h]
  · intro h
    simp only [publishResponse]
    rw [if_neg (by simp [h]), send_body_loop_eq]
  · exact ⟨[(dateN, "D"), (contentLengthN, "5")], rfl, rfl⟩

theorem c1_response_emission_witness :
    publishResponse "D" ⟨200, []⟩ (BodySize.sized 5) false [[104, 101, 108, 108, 111]] =
      Send.response (prepare_response "D" ⟨200, []⟩ (BodySize.sized 5)).1.status
          (prepare_response "D" ⟨200, []⟩ (BodySize.sized 5)).1.headers false ::
        (([[104, 101, 108, 108, 111]].filter (fun c => !c.isEmpty)).map
            (fun c => Send.payload c false) ++ [Send.payload [] true]) :=
  (c1_response_emission "D" ⟨200, []⟩ (BodySize.sized 5) false
    [[104, 101, 108, 108, 111]]).2.2.1 (by decide)

/-! ## Claims C5, C6, C7 — the stream publish handler

Embedding of the synchronous, stream-table-affecting part of
`PublishService::call` (lines 311-353). The `streams` field is the
`HashMap<StreamId, PayloadSender>`, modelled as an association list whose
operations mirror the map semantics the code uses (`insert` overwrites,
`get_mut` updates the entry in place, `remove` deletes it). Stream ids are
`Nat`. -/

/-- Terminal state of a payload channel. -/
inductive Terminal where
  | eofData (last : List Nat)
  | failed (e : Nat)
deriving DecidableEq, Repr

/-- Modelled from the spec: the Payload Channel of §4.3 (its module
`super::payload` is not among the provided sources): a queue of fed byte
chunks, the accumulated flow-control credit returned to the transport, and
the optional terminal marker. -/
structure PayloadSender where
  chunks : List (List Nat)
  credit : Nat
  terminal : Option Terminal
deriving DecidableEq, Repr

def PayloadSender.init : PayloadSender := ⟨[], 0, Option.none⟩

/-- Modelled from the spec: §4.3 `feedData(chunk, credit)` — append the bytes
and return the credit to the flow-control accounting. -/
def feed_data (s : PayloadSender) (bytes : List Nat) (cap : Nat) : PayloadSender :=
  ⟨s.chunks ++ [bytes], s.credit + cap, s.terminal⟩

/-- Modelled from the spec: §4.3 `feedEof(chunk)` — append final bytes and
mark terminal. -/
def feed_eof (s : PayloadSender) (bytes : List Nat) : PayloadSender :=
  ⟨s.chunks, s.credit, some (Terminal.eofData bytes)⟩

/-- Modelled from the spec: §4.3 `setError(err)` — mark terminal-failed. -/
def set_error (s : PayloadSender) (e : Nat) : PayloadSender :=
  ⟨s.chunks, s.credit, some (Terminal.failed e)⟩

abbrev StreamTable := List (Nat × PayloadSender)

def tb_lookup : StreamTable → Nat → Option PayloadSender
  | [], _ => Option.none
  | p :: t, id => if p.1 = id then some p.2 else tb_lookup t id

def tb_remove : StreamTable → Nat → StreamTable
  | [], _ => []
  | p :: t, id => if p.1 = id then tb_remove t id else p :: tb_remove t id

def tb_insert (t : StreamTable) (id : Nat) (s : PayloadSender) : StreamTable :=
  (id, s) :: tb_remove t id

def tb_update : StreamTable → Nat → (PayloadSender → PayloadSender) → StreamTable
  | [], _, _ => []
  | p :: t, id, f => if p.1 = id then (p.1, f p.2) :: tb_update t id f
                     else p :: tb_update t id f

/-- Pseudo-header block of a `Headers` event (§6). -/
structure Pseudo where
  method : Option String
  path : Option String
  scheme : Option String
  authority : Option String
deriving DecidableEq, Repr

/-- The `h2::StreamEof` payload of an `Eof` event. -/
inductive StreamEof where
  | data (bytes : List Nat)
  | trailers
  | error (e : Nat)
deriving DecidableEq, Repr

/-- The `h2::MessageKind` variants consumed by `PublishService::call`. -/
inductive MessageKind where
  | headers (pseudo : Pseudo) (headers : HeaderMap) (eof : Bool)
  | data (bytes : List Nat) (cap : Nat)
  | eofMsg (item : StreamEof)
  | other
deriving DecidableEq, Repr

/-- Embedding of the `match msg.kind().take()` of `PublishService::call`
(lines 311-353), restricted to its effect on the `streams` table and its
immediate result. A `Headers` event with `eof = false` inserts a fresh
channel; `Data` feeds an existing channel (chunk dropped when none exists);
`Eof` removes the channel, finalizing the removed sender with
`feed_eof`/`set_error` on the consumer side; `Other` is ignored. The `Bool`
component is `true` when the arm's immediate result is `Ok`: the `Data`,
`Eof` and `Other` arms return `Either::Right(Ready::Ok(()))` unconditionally,
and the `Headers` arm always proceeds to the asynchronous service call. -/
def publish_call_step (t : StreamTable) (id : Nat) (k : MessageKind) :
    StreamTable × Bool :=
  match k with
  | .headers _ _ eof =>
      if eof then (t, true) else (tb_insert t id PayloadSender.init, true)
  | .data bytes cap => (tb_update t id (fun s => feed_data s bytes cap), true)
  | .eofMsg _ => (tb_remove t id, true)
  | .other => (t, true)

def run_steps (t : StreamTable) (evs : List (Nat × MessageKind)) : StreamTable :=
  evs.foldl (fun acc e => (publish_call_step acc e.1 e.2).1) t

/-- Keys of the table are pairwise distinct: at most one channel per id. -/
def tb_at_most_one (t : StreamTable) : Prop :=
  (t.map Prod.fst).Nodup

/-! ### Table lemmas -/

theorem tb_lookup_tb_remove (t : StreamTable) (id id' : Nat) :
    tb_lookup (tb_remove t id') id = if id = id' then Option.none else tb_lookup t id := by
  induction t with
  | nil => simp only [tb_remove, tb_lookup]; split <;> rfl
  | cons p t ih =>
    by_cases h1 : p.1 = id' <;> by_cases h2 : id = id' <;> by_cases h3 : p.1 = id <;>
      simp_all [tb_remove, tb_lookup]

theorem tb_lookup_tb_insert (t : StreamTable) (id id' : Nat) (s : PayloadSender) :
    tb_lookup (tb_insert t id' s) id = if id = id' then some s else tb_lookup t id := by
  by_cases h : id = id' <;> simp [tb_insert, tb_lookup, tb_lookup_tb_remove, h]
  exact fun h' => absurd h'.symm h

theorem tb_lookup_tb_update (t : StreamTable) (id : Nat)
    (f : PayloadSender → PayloadSender) :
    tb_lookup (tb_update t id f) id = (tb_lookup t id).map f := by
  induction t with
  | nil => rfl
  | cons p t ih =>
    by_cases h : p.1 = id <;> simp [tb_update, tb_lookup, h, ih]

theorem tb_lookup_tb_update_ne (t : StreamTable) (id id' : Nat)
    (f : PayloadSender → PayloadSender) (h : id' ≠ id) :
    tb_lookup (tb_update t id f) id' = tb_lookup t id' := by
  induction t with
  | nil => rfl
  | cons p t ih =>
    by_cases h1 : p.1 = id <;> by_cases h2 : p.1 = id' <;>
      simp_all [tb_update, tb_lookup]

theorem tb_remove_tb_remove (t : StreamTable) (id : Nat) :
    tb_remove (tb_remove t id) id = tb_remove t id := by
  induction t with
  | nil => rfl
  | cons p t ih =>
    by_cases h : p.1 = id <;> simp [tb_remove, h, ih]

theorem tb_lookup_eq_none_tb_remove (t : StreamTable) (id : Nat)
    (h : tb_lookup t id = Option.none) : tb_remove t id = t := by
  induction t with
  | nil => rfl
  | cons p t ih =>
    by_cases h1 : p.1 = id
    · simp [tb_lookup, h1] at h
    · simp only [tb_lookup, if_neg h1] at h
      simp [tb_remove, h1, ih h]

theorem tb_lookup_eq_none_tb_update (t : StreamTable) (id : Nat)
    (f : PayloadSender → PayloadSender) (h : tb_lookup t id = Option.none) :
    tb_update t id f = t := by
  induction t with
  | nil => rfl
  | cons p t ih =>
    by_cases h1 : p.1 = id
    · simp [tb_lookup, h1] at h
    · simp only [tb_lookup, if_neg h1] at h
      simp [tb_update, h1, ih h]

theorem tb_at_most_one_tb_remove (t : StreamTable) (id : Nat)
    (h : tb_at_most_one t) : tb_at_most_one (tb_remove t id) := by
  induction t with
  | nil => exact h
  | cons p t ih =>
    simp only [tb_at_most_one, List.map_cons, List.nodup_cons] at h
    by_cases h1 : p.1 = id
    · simpa [tb_at_most_one, tb_remove, h1] using ih h.2
    · simp only [tb_at_most_one, tb_remove, if_neg h1, List.map_cons, List.nodup_cons]
      refine ⟨fun hmem => h.1 ?_, ih h.2⟩
      -- membership in the filtered map implies membership in the original map
      clear ih h
      induction t with
      | nil => simp [tb_remove] at hmem
      | cons q t iht =>
        by_cases h2 : q.1 = id
        · simp only [tb_remove, if_pos h2] at hmem
          exact List.mem_cons_of_mem _ (iht hmem)
        · simp only [tb_remove, if_neg h2, List.map_cons, List.mem_cons] at hmem
          rcases hmem with hmem | hmem
          · simp [hmem]
          · exact List.mem_cons_of_mem _ (iht hmem)

theorem tb_remove_map_fst_not_mem (t : StreamTable) (id : Nat) :
    id ∉ (tb_remove t id).map Prod.fst := by
  induction t with
  | nil => simp [tb_remove]
  | cons p t ih =>
    by_cases h : p.1 = id
    · simpa [tb_remove, h] using ih
    · simp only [tb_remove, if_neg h, List.map_cons, List.mem_cons]
      rintro (h' | h')
      · exact h h'.symm
      · exact ih h'

theorem tb_at_most_one_tb_insert (t : StreamTable) (id : Nat) (s : PayloadSender)
    (h : tb_at_most_one t) : tb_at_most_one (tb_insert t id s) := by
  simp only [tb_at_most_one, tb_insert, List.map_cons, List.nodup_cons]
  exact ⟨tb_remove_map_fst_not_mem t id, tb_at_most_one_tb_remove t id h⟩

theorem tb_update_map_fst (t : StreamTable) (id : Nat)
    (f : PayloadSender → PayloadSender) :
    (tb_update t id f).map Prod.fst = t.map Prod.fst := by
  induction t with
  | nil => rfl
  | cons p t ih =>
    by_cases h : p.1 = id <;> simp [tb_update, h, ih]

theorem tb_at_most_one_tb_update (t : StreamTable) (id : Nat)
    (f : PayloadSender → PayloadSender) (h : tb_at_most_one t) :
    tb_at_most_one (tb_update t id f) := by
  simpa [tb_at_most_one, tb_update_map_fst] using h

theorem tb_at_most_one_step (t : StreamTable) (id : Nat) (k : MessageKind)
    (h : tb_at_most_one t) : tb_at_most_one (publish_call_step t id k).1 := by
  cases k with
  | headers p hm eof =>
    cases eof
    · exact tb_at_most_one_tb_insert t id PayloadSender.init h
    · exact h
  | data bytes cap => exact tb_at_most_one_tb_update t id _ h
  | eofMsg item => exact tb_at_most_one_tb_remove t id h
  | other => exact h

/-- C5: starting from the empty table, any sequence of events leaves at most
one channel per stream id; a channel is inserted exactly by a `Headers` event
with `endStream = false` (other ids untouched), a `Headers` event with
`endStream = true` and an `Other` event leave the table unchanged, a `Data`
event never changes which streams have a channel, an `Eof` event removes
exactly the channel of its stream id, and `Eof` is idempotent: a second `Eof`
for the same id leaves the whole table — hence every other stream's
channel — unchanged. -/
theorem c5_stream_table_invariant :
    (∀ evs : List (Nat × MessageKind), tb_at_most_one (run_steps [] evs)) ∧
      (∀ t id p hm,
        tb_lookup (publish_call_step t id (MessageKind.headers p hm false)).1 id
            = some PayloadSender.init ∧
          ∀ id', id' ≠ id →
            tb_lookup (publish_call_step t id (MessageKind.headers p hm false)).1 id'
              = tb_lookup t id') ∧
      (∀ t id p hm, (publish_call_step t id (MessageKind.headers p hm true)).1 = t) ∧
      (∀ t id, (publish_call_step t id MessageKind.other).1 = t) ∧
      (∀ t id bytes cap id',
        (tb_lookup (publish_call_step t id (MessageKind.data bytes cap)).1 id').isSome
          = (tb_lookup t id').isSome) ∧
      (∀ t id item,
        tb_lookup (publish_call_step t id (MessageKind.eofMsg item)).1 id = Option.none ∧
          ∀ id', id' ≠ id →
            tb_lookup (publish_call_step t id (MessageKind.eofMsg item)).1 id'
              = tb_lookup t id') ∧
      (∀ t id item item',
        (publish_call_step (publish_call_step t id (MessageKind.eofMsg item)).1 id
            (MessageKind.eofMsg item')).1
          = (publish_call_step t id (MessageKind.eofMsg item)).1) := by
  refine ⟨?_, ?_, ?_, ?_, ?_, ?_, ?_⟩
  · intro evs
    have : ∀ t, tb_at_most_one t → tb_at_most_one (run_steps t evs) := by
      induction evs with
      | nil => exact fun t h => h
      | cons e rest ih =>
        intro t h
        exact ih _ (tb_at_most_one_step t e.1 e.2 h)
    exact this [] (by simp [tb_at_most_one])
  · intro t id p hm
    constructor
    · simp [publish_call_step, tb_lookup_tb_insert]
    · intro id' h
      simp [publish_call_step, tb_lookup_tb_insert, h]
  · intro t id p hm; rfl
  · intro t id; rfl
  · intro t id bytes cap id'
    by_cases h : id' = id
    · subst h
      simp [publish_call_step, tb_lookup_tb_update]
    · simp [publish_call_step, tb_lookup_tb_update_ne t id id' _ h]
  · intro t id item
    constructor
    · simp [publish_call_step, tb_lookup_tb_remove]
    · intro id' h
      simp [publish_call_step, tb_lookup_tb_remove, h]
  · intro t id item item'
    simp [publish_call_step, tb_remove_tb_remove]

theorem c5_stream_table_invariant_witness :
    tb_lookup (publish_call_step [] 1 (MessageKind.headers ⟨Option.none, Option.none,
        Option.none, Option.none⟩ [] false)).1 1 = some PayloadSender.init :=
  (c5_stream_table_invariant.2.1 [] 1 ⟨Option.none, Option.none, Option.none,
    Option.none⟩ []).1

/-- C7: a `Data` or `Eof` event always yields an immediate `Ok` result; when
no channel exists for the stream id the table is left unchanged (the `Data`
chunk is dropped, the `Eof` is a no-op); and when a channel does exist, two
successive `Data` events append their bytes to that channel's queue in
arrival order while adding the given flow-control credits. -/
theorem c7_data_eof_handling (t : StreamTable) (id : Nat) (bytes : List Nat)
    (cap : Nat) (item : StreamEof) :
    (publish_call_step t id (MessageKind.data bytes cap)).2 = true ∧
      (publish_call_step t id (MessageKind.eofMsg item)).2 = true ∧
      (tb_lookup t id = Option.none →
        (publish_call_step t id (MessageKind.data bytes cap)).1 = t) ∧
      (tb_lookup t id = Option.none →
        (publish_call_step t id (MessageKind.eofMsg item)).1 = t) ∧
      (∀ s b2 c2, tb_lookup t id = some s →
        tb_lookup (publish_call_step
            (publish_call_step t id (MessageKind.data bytes cap)).1 id
            (MessageKind.data b2 c2)).1 id
          = some ⟨s.chunks ++ [bytes] ++ [b2], s.credit + cap + c2, s.terminal⟩) := by
  refine ⟨rfl, rfl, ?_, ?_, ?_⟩
  · intro h
    simpa [publish_call_step] using tb_lookup_eq_none_tb_update t id _ h
  · intro h
    simpa [publish_call_step] using tb_lookup_eq_none_tb_remove t id h
  · intro s b2 c2 h
    simp [publish_call_step, tb_lookup_tb_update, h, feed_data]

theorem c7_data_eof_handling_witness :
    tb_lookup (publish_call_step
        (publish_call_step [(4, PayloadSender.init)] 4 (MessageKind.data [1, 2] 8)).1 4
        (MessageKind.data [3] 5)).1 4
      = some ⟨PayloadSender.init.chunks ++ [[1, 2]] ++ [[3]],
          PayloadSender.init.credit + 8 + 5, PayloadSender.init.terminal⟩ :=
  (c7_data_eof_handling [(4, PayloadSender.init)] 4 [1, 2] 8 StreamEof.trailers).2.2.2.2
    PayloadSender.init [3] 5 rfl

/-- Embedding of request-target construction from `PublishService::call`
(lines 371-380): `path` and `method` are required pseudo-headers (checked in
that order); with an `authority` a `scheme` is also required and the string
passed to `Uri::try_from` is `scheme "://" authority path`, otherwise it is
the path alone. Produces the method together with that string. -/
inductive H2Error where
  | missingPseudo (field : String)
  | malformedUri
deriving DecidableEq, Repr

def build_request_target (p : Pseudo) : Except H2Error (String × String) :=
  match p.path with
  | Option.none => Except.error (H2Error.missingPseudo "Path")
  | some path =>
    match p.method with
    | Option.none => Except.error (H2Error.missingPseudo "Method")
    | some method =>
      match p.authority with
      | some authority =>
        match p.scheme with
        | Option.none => Except.error (H2Error.missingPseudo "Scheme")
        | some scheme =>
            Except.ok (method, scheme ++ "://" ++ authority ++ path)
      | Option.none => Except.ok (method, path)

/-- C6: request construction fails with a `MissingPseudo` error whenever
`:method` or `:path` is absent; with `:authority` present but `:scheme`
absent it fails with the missing-pseudo-header error for `Scheme`; and with
all required pseudo-headers present the URI string is
`scheme ++ "://" ++ authority ++ path` when an authority is present and the
path alone otherwise. -/
theorem c6_pseudo_header_errors (p : Pseudo) :
    ((p.method = Option.none ∨ p.path = Option.none) →
        ∃ f, build_request_target p = Except.error (H2Error.missingPseudo f)) ∧
      (∀ m pa a, p.method = some m → p.path = some pa → p.authority = some a →
        p.scheme = Option.none →
        build_request_target p = Except.error (H2Error.missingPseudo "Scheme")) ∧
      (∀ m pa a s, p.method = some m → p.path = some pa → p.authority = some a →
        p.scheme = some s →
        build_request_target p = Except.ok (m, s ++ "://" ++ a ++ pa)) ∧
      (∀ m pa, p.method = some m → p.path = some pa → p.authority = Option.none →
        build_request_target p = Except.ok (m, pa)) := by
  obtain ⟨m, pa, s, a⟩ := p
  refine ⟨?_, ?_, ?_, ?_⟩
  · rintro (h | h) <;> subst h
    · cases pa
      · exact ⟨"Path", rfl⟩
      · exact ⟨"Method", rfl⟩
    · exact ⟨"Path", rfl⟩
  · rintro m' pa' a' hm hpa ha hs
    subst hm; subst hpa; subst ha; subst hs
    rfl
  · rintro m' pa' a' s' hm hpa ha hs
    subst hm; subst hpa; subst ha; subst hs
    rfl
  · rintro m' pa' hm hpa ha
    subst hm; subst hpa; subst ha
    rfl

theorem c6_pseudo_header_errors_witness :
    build_request_target ⟨some "GET", some "/x", some "https", some "example.com"⟩
      = Except.ok ("GET", "https" ++ "://" ++ "example.com" ++ "/x") :=
  (c6_pseudo_header_errors ⟨some "GET", some "/x", some "https",
    some "example.com"⟩).2.2.1 "GET" "/x" "example.com" "https" rfl rfl rfl rfl

/-! ## Claim C8 — `CacheControl::build`

Embedding of `CacheControl` from `src/ntex-http/src/headers/caching.rs`.
The bit-flag set is a `u16`, modelled as `Nat`; durations are modelled as
their whole-second values (`Duration::as_secs`). `build` produces the list of
directive strings that become the multi-valued header; the comma-joined
rendering of that list is the serialized form quoted by the spec. -/

/-- The `FLAGS` table of caching.rs, in source order; bit `n` of the flag set
corresponds to entry `n`. -/
def cacheFlagNames : List String :=
  ["no-cache", "must-revalidate", "proxy-revalidate", "no-store", "private",
   "public", "must-understand", "no-transform", "immutable", "only-if-cached"]

structure CacheControl where
  bitflags : Nat
  max_age : Option Nat
  s_maxage : Option Nat
  stale_while_revalidate : Option Nat
  stale_if_error : Option Nat
  max_stale : Option Nat
  min_fresh : Option Nat
deriving DecidableEq, Repr

def CacheControl.new : CacheControl :=
  ⟨0, Option.none, Option.none, Option.none, Option.none, Option.none, Option.none⟩

/-- Embedding of `CacheControl::has_flag`: the empty flag compares the whole
set against zero, any other flag is tested by mask. -/
def has_flag (c : CacheControl) (flag : Nat) : Bool :=
  if flag = 0 then c.bitflags = 0 else c.bitflags &&& flag = flag

/-- Embedding of `CacheControl::build` (lines 196-236): when the flag set is
non-empty, the names of the set flags in `FLAGS` order; then the first set
time directive of the `if let` chain `max_age`, `s_maxage`,
`stale_while_revalidate`, `stale_if_error`, `max_stale`, `min_fresh`. -/
def cc_build (c : CacheControl) : List String :=
  let flags : List String :=
    if !(has_flag c 0) then
      cacheFlagNames.enum.filterMap (fun x =>
        if has_flag c (1 <<< x.1) then some x.2 else Option.none)
    else []
  let tail : List String :=
    match c.max_age with
    | some d => ["max-age=" ++ toString d]
    | Option.none =>
      match c.s_maxage with
      | some d => ["s-maxage=" ++ toString d]
      | Option.none =>
        match c.stale_while_revalidate with
        | some d => ["stale-while-revalidate=" ++ toString d]
        | Option.none =>
          match c.stale_if_error with
          | some d => ["stale-if-error=" ++ toString d]
          | Option.none =>
            match c.max_stale with
            | some d => ["max-stale=" ++ toString d]
            | Option.none =>
              match c.min_fresh with
              | some d => ["min-fresh=" ++ toString d]
              | Option.none => []
  flags ++ tail

/-- The serialized header value: the directive list joined with ", ". -/
def cc_serialize (c : CacheControl) : String :=
  String.intercalate ", " (cc_build c)

/-- The flag part as the spec words it (§6): the ten named flags filtered, in
the fixed order, by membership of their bit in the set. -/
def spec_flag_list (c : CacheControl) : List String :=
  cacheFlagNames.enum.filterMap (fun x =>
    if c.bitflags.testBit x.1 then some x.2 else Option.none)

/-- The time directive as the spec words it (§6, §9): an explicit ordered
priority list evaluated top-down, serializing only the first set entry. -/
def spec_directive (c : CacheControl) : List String :=
  let cands : List (String × Option Nat) :=
    [("max-age", c.max_age), ("s-maxage", c.s_maxage),
     ("stale-while-revalidate", c.stale_while_revalidate),
     ("stale-if-error", c.stale_if_error), ("max-stale", c.max_stale),
     ("min-fresh", c.min_fresh)]
  match cands.find? (fun x => x.2.isSome) with
  | some (name, some d) => [name ++ "=" ++ toString d]
  | _ => []

theorem has_flag_pow (c : CacheControl) (n : Nat) :
    has_flag c (1 <<< n) = c.bitflags.testBit n := by
  have hne : (1 <<< n) ≠ 0 := by
    rw [Nat.shiftLeft_eq, one_mul]
    exact (pow_pos (by norm_num : (0 : ℕ) < 2) n).ne'
  rw [has_flag, if_neg hne, Nat.shiftLeft_eq, one_mul]
  rcases h : c.bitflags.testBit n with _ | _
  · simp only [decide_eq_false_iff_not]
    intro hand
    have h2 : (c.bitflags &&& 2 ^ n).testBit n = true := by
      rw [hand]; exact Nat.testBit_two_pow_self
    rw [Nat.testBit_and, h] at h2
    simp at h2
  · simp only [decide_eq_true_eq]
    apply Nat.eq_of_testBit_eq
    intro i
    rw [Nat.testBit_and]
    by_cases hi : i = n
    · subst hi; simp [h]
    · simp [Nat.testBit_two_pow_of_ne (fun h' => hi h'.symm)]

theorem spec_flag_list_of_zero (c : CacheControl) (h : c.bitflags = 0) :
    spec_flag_list c = [] := by
  simp [spec_flag_list, h]

theorem cc_build_flags_eq (c : CacheControl) :
    (if !(has_flag c 0) then
        cacheFlagNames.enum.filterMap (fun x =>
          if has_flag c (1 <<< x.1) then some x.2 else Option.none)
      else []) = spec_flag_list c := by
  by_cases h : c.bitflags = 0
  · have h0 : has_flag c 0 = true := by simp [has_flag, h]
    rw [h0, spec_flag_list_of_zero c h]
    rfl
  · have h0 : has_flag c 0 = false := by simp [has_flag, h]
    rw [h0]
    simp only [Bool.not_false, if_true, spec_flag_list, has_flag_pow]

/-- The response with only max-age=60 set. -/
def ccOnlyMaxAge : CacheControl := { CacheControl.new with max_age := some 60 }

/-- Flags no-cache (bit 0) and private (bit 4) plus max-age=30. -/
def ccFlagsMaxAge : CacheControl :=
  { CacheControl.new with bitflags := 1 ||| (1 <<< 4), max_age := some 30 }

/-- C8: `build` emits the set flags first, in the fixed source order, followed
by at most one time directive chosen by the fixed first-set-wins priority
(the two components being the spec's own formulations `spec_flag_list` and
`spec_directive`); with only max-age=60 set it serializes to exactly
"max-age=60", and with flags {no-cache, private} and max-age=30 it serializes
to "no-cache, private, max-age=30". -/
theorem c8_cache_control_build (c : CacheControl) :
    cc_build c = spec_flag_list c ++ spec_directive c ∧
      cc_serialize ccOnlyMaxAge = "max-age=60" ∧
      cc_serialize ccFlagsMaxAge = "no-cache, private, max-age=30" := by
  refine ⟨?_, by rfl, by rfl⟩
  have hflags := cc_build_flags_eq c
  simp only [cc_build]
  rw [hflags]
  congr 1
  rcases c with ⟨b, ma, sm, swr, sie, ms, mf⟩
  cases ma with
  | some d => rfl
  | none =>
    cases sm with
    | some d => rfl
    | none =>
      cases swr with
      | some d => rfl
      | none =>
        cases sie with
        | some d => rfl
        | none =>
          cases ms with
          | some d => rfl
          | none =>
            cases mf with
            | some d => rfl
            | none => rfl

/-! ## Claim C9 — `Quality`

Embedding of `Quality` from `src/ntex-http/src/headers/content_negotiation.rs`.
The stored weight is a `u16` count of thousandths (`MQ = 1000`), modelled as
`Nat`. The `f32` input of `from_f32` is modelled by an exact rational; the
`(f * 1000.0) as u16` cast is truncation toward zero saturated to the `u16`
range (the cast is only reached on the nonnegative path, where truncation
toward zero is the floor). -/

inductive Quality where
  | value (q : Nat)
  | default
deriving DecidableEq, Repr

/-- The saturating `as u16` cast of the (nonnegative-path) float, on the
exact-rational model: floor, clamped to the u16 range. -/
def u16_of_rat (f : ℚ) : Nat := min 65535 (Int.toNat ⌊f⌋)

/-- Embedding of `Quality::from_f32`: reject negative inputs, reject inputs
whose thousandths cast exceeds `MQ = 1000`, otherwise store the cast. -/
def from_f32 (f : ℚ) : Option Quality :=
  if f < 0 then Option.none
  else if 1000 < u16_of_rat (f * 1000) then Option.none
  else some (Quality.value (u16_of_rat (f * 1000)))

/-- Decimal rendering of `q as f32 / 1000.0` under Rust float `Display`
(shortest round-tripping decimal), modelled as the exact up-to-3-decimal
expansion with trailing zeros removed; `q / 1000` here has at most four
significant digits, so the shortest round-tripping decimal of the nearest
`f32` is that exact expansion. -/
def render_q (q : Nat) : String :=
  if q % 1000 = 0 then toString (q / 1000)
  else
    let frac := q % 1000
    let ds : List Char :=
      if frac % 10 ≠ 0 then
        [Char.ofNat (48 + frac / 100), Char.ofNat (48 + frac / 10 % 10),
          Char.ofNat (48 + frac % 10)]
      else if frac % 100 ≠ 0 then
        [Char.ofNat (48 + frac / 100), Char.ofNat (48 + frac / 10 % 10)]
      else [Char.ofNat (48 + frac / 100)]
    toString (q / 1000) ++ "." ++ String.mk ds

/-- Embedding of `fmt::Display for Quality` (lines 35-50): zero renders as
"q=0", stored values above `MQ` are a formatting error, other values render
as "q=" followed by the decimal value, and the default most-preferred value
writes nothing. -/
def quality_display : Quality → Except Unit String
  | Quality.default => Except.ok ""
  | Quality.value q =>
      if q = 0 then Except.ok "q=0"
      else if 1000 < q then Except.error ()
      else Except.ok ("q=" ++ render_q q)

/-- C9 as stated fails on the code: the input 1.0005 lies outside
[0.000, 1.000], yet `(1.0005 * 1000.0) as u16 = 1000` is not above `MQ`, so
`from_f32` accepts it (as `Quality::Value 1000`) instead of rejecting it. -/
theorem c9_counterexample :
    (1 : ℚ) < (10005 : ℚ) / 10000 ∧
      from_f32 ((10005 : ℚ) / 10000) = some (Quality.value 1000) := by
  constructor
  · norm_num
  · have hfl : (⌊(10005 : ℚ) / 10000 * 1000⌋ : ℤ) = 1000 := by
      rw [Int.floor_eq_iff]
      norm_num
    have hu : u16_of_rat ((10005 : ℚ) / 10000 * 1000) = 1000 := by
      rw [u16_of_rat, hfl]
      decide
    simp only [from_f32, hu]
    rw [if_neg (by norm_num), if_neg (by norm_num)]

/-- C9 (amended): `from_f32` rejects every negative input and every input
whose truncated thousandths value exceeds 1000 — so in particular every input
below 0 or at least 1.001 — and accepts the rest (including the gap
(1.000, 1.001), whose values truncate to 1000); `from_f32 (-0.1)` and
`from_f32 1.5` are rejected, `from_f32 0.5` yields the stored value 500 which
displays as "q=0.5", and the default value displays as the empty string. -/
theorem c9_quality_range (f : ℚ) :
    (f < 0 → from_f32 f = Option.none) ∧
      (1000 < u16_of_rat (f * 1000) → from_f32 f = Option.none) ∧
      (0 ≤ f → u16_of_rat (f * 1000) ≤ 1000 →
        from_f32 f = some (Quality.value (u16_of_rat (f * 1000)))) ∧
      from_f32 ((-1 : ℚ) / 10) = Option.none ∧
      from_f32 ((3 : ℚ) / 2) = Option.none ∧
      from_f32 ((1 : ℚ) / 2) = some (Quality.value 500) ∧
      quality_display (Quality.value 500) = Except.ok "q=0.5" ∧
      quality_display Quality.default = Except.ok "" := by
  refine ⟨?_, ?_, ?_, ?_, ?_, ?_, by rfl, by rfl⟩
  · intro h
    simp only [from_f32]
    rw [if_pos h]
  · intro h
    by_cases hf : f < 0
    · simp only [from_f32]; rw [if_pos hf]
    · simp only [from_f32]; rw [if_neg hf, if_pos h]
  · intro h1 h2
    simp only [from_f32]
    rw [if_neg (not_lt.mpr h1), if_neg (not_lt.mpr h2)]
  · simp only [from_f32]
    rw [if_pos (by norm_num)]
  · have hfl : (⌊(3 : ℚ) / 2 * 1000⌋ : ℤ) = 1500 := by
      rw [Int.floor_eq_iff]
      norm_num
    have hu : u16_of_rat ((3 : ℚ) / 2 * 1000) = 1500 := by
      rw [u16_of_rat, hfl]
      decide
    simp only [from_f32, hu]
    rw [if_neg (by norm_num), if_pos (by norm_num)]
  · have hfl : (⌊(1 : ℚ) / 2 * 1000⌋ : ℤ) = 500 := by
      rw [Int.floor_eq_iff]
      norm_num
    have hu : u16_of_rat ((1 : ℚ) / 2 * 1000) = 500 := by
      rw [u16_of_rat, hfl]
      decide
    simp only [from_f32, hu]
    rw [if_neg (by norm_num), if_neg (by norm_num)]

theorem c9_quality_range_witness :
    from_f32 ((1 : ℚ) / 2)
      = some (Quality.value (u16_of_rat ((1 : ℚ) / 2 * 1000))) :=
  (c9_quality_range ((1 : ℚ) / 2)).2.2.1 (by norm_num) (by
    have hfl : (⌊(1 : ℚ) / 2 * 1000⌋ : ℤ) = 500 := by
      rw [Int.floor_eq_iff]
      norm_num
    rw [u16_of_rat, hfl]
    decide)

/-! ## Claim C10 — `Age` build/parse round trip

Embedding of `Age` from `src/ntex-http/src/headers/caching.rs`. A
`Duration` is whole seconds plus subsecond nanoseconds; `as_secs` is the
`secs` component (the fractional part dropped). `Age::build` produces
`HeaderValue::from(u64)` — the decimal digit string of the seconds — and the
`TryFrom<HeaderValue>` impl trims the string and parses it as `u64`,
reconstructing the duration with `Duration::from_secs` (nanoseconds zero). -/

structure MDuration where
  secs : Nat
  nanos : Nat
deriving DecidableEq, Repr

structure Age where
  value : MDuration
deriving DecidableEq, Repr

/-- Big-endian decimal digits of a positive number, with explicit fuel (the
number itself suffices, as the value shrinks by a factor of ten each step). -/
def natToDigitsAux : Nat → Nat → List Nat
  | 0, _ => []
  | _ + 1, 0 => []
  | fuel + 1, n + 1 => natToDigitsAux fuel ((n + 1) / 10) ++ [(n + 1) % 10]

/-- The decimal digit list a `u64` formats to: "0" for zero, otherwise the
big-endian digits. -/
def natDecimalDigits (n : Nat) : List Nat :=
  if n = 0 then [0] else natToDigitsAux n n

def digitChar (d : Nat) : Char := Char.ofNat (48 + d)

/-- Model of reading one ASCII digit, as the `u64` parser does. -/
def charDigit? (c : Char) : Option Nat :=
  if 48 ≤ c.toNat ∧ c.toNat ≤ 57 then some (c.toNat - 48) else Option.none

def parse_digits : List Char → Nat → Option Nat
  | [], acc => some acc
  | c :: cs, acc =>
    match charDigit? c with
    | some d => parse_digits cs (acc * 10 + d)
    | Option.none => Option.none

/-- Embedding of `str::parse::<u64>` on the unsigned path: a nonempty
all-digit string evaluates to its decimal value, rejected past the `u64`
range (the Rust parser's per-step overflow check is equivalent to the final
bound, since every partial value is at most the total). Leading `+` signs are
not modelled; the builder never produces one. -/
def parse_u64 (cs : List Char) : Option Nat :=
  if cs.isEmpty then Option.none
  else
    match parse_digits cs 0 with
    | some n => if n < 2 ^ 64 then some n else Option.none
    | Option.none => Option.none

/-- Model of `str::trim`: drop whitespace from both ends. -/
def trim_chars (cs : List Char) : List Char :=
  ((cs.dropWhile Char.isWhitespace).reverse.dropWhile Char.isWhitespace).reverse

/-- Embedding of `Age::build`: the decimal digit characters of
`value.as_secs()`. -/
def age_build (a : Age) : List Char :=
  (natDecimalDigits a.value.secs).map digitChar

/-- Embedding of `TryFrom<HeaderValue> for Age`: trim, parse as `u64`, and
rebuild the duration from whole seconds. -/
def age_try_from (v : List Char) : Option Age :=
  match parse_u64 (trim_chars v) with
  | some n => some ⟨⟨n, 0⟩⟩
  | Option.none => Option.none

theorem natToDigitsAux_foldl (fuel : Nat) :
    ∀ n a, n ≤ fuel →
      (natToDigitsAux fuel n).foldl (fun x d => x * 10 + d) a
        = a * 10 ^ (natToDigitsAux fuel n).length + n := by
  induction fuel with
  | zero =>
    intro n a h
    have hn : n = 0 := by omega
    subst hn
    simp [natToDigitsAux]
  | succ fuel ih =>
    intro n a h
    cases n with
    | zero => simp [natToDigitsAux]
    | succ n =>
      have hdiv : (n + 1) / 10 ≤ fuel := by
        have := Nat.div_lt_self (Nat.succ_pos n) (by norm_num : 1 < 10)
        omega
      have hmod := Nat.div_add_mod (n + 1) 10
      simp only [natToDigitsAux, List.foldl_append, List.foldl_cons, List.foldl_nil,
        List.length_append, List.length_cons, List.length_nil]
      rw [ih _ a hdiv]
      generalize (natToDigitsAux fuel ((n + 1) / 10)).length = L
      rw [pow_succ, ← mul_assoc]
      generalize a * 10 ^ L = X
      omega

theorem foldl_natDecimalDigits (n : Nat) :
    (natDecimalDigits n).foldl (fun x d => x * 10 + d) 0 = n := by
  by_cases h : n = 0
  · subst h; rfl
  · simp only [natDecimalDigits, if_neg h]
    rw [natToDigitsAux_foldl n n 0 (le_refl n)]
    simp

theorem natToDigitsAux_lt_ten (fuel : Nat) :
    ∀ n d, d ∈ natToDigitsAux fuel n → d < 10 := by
  induction fuel with
  | zero => intro n d hd; simp [natToDigitsAux] at hd
  | succ fuel ih =>
    intro n d hd
    cases n with
    | zero => simp [natToDigitsAux] at hd
    | succ n =>
      simp only [natToDigitsAux, List.mem_append, List.mem_singleton] at hd
      rcases hd with hd | hd
      · exact ih _ _ hd
      · subst hd; exact Nat.mod_lt _ (by norm_num)

theorem natDecimalDigits_lt_ten (n : Nat) :
    ∀ d ∈ natDecimalDigits n, d < 10 := by
  intro d hd
  by_cases h : n = 0
  · subst h; simp [natDecimalDigits] at hd; omega
  · simp only [natDecimalDigits, if_neg h] at hd
    exact natToDigitsAux_lt_ten n n d hd

theorem natDecimalDigits_ne_nil (n : Nat) : natDecimalDigits n ≠ [] := by
  by_cases h : n = 0
  · subst h; simp [natDecimalDigits]
  · rcases Nat.exists_eq_succ_of_ne_zero h with ⟨m, rfl⟩
    simp [natDecimalDigits, natToDigitsAux]

theorem charDigit_digitChar (d : Nat) (h : d < 10) :
    charDigit? (digitChar d) = some d := by
  interval_cases d <;> decide

theorem digitChar_not_ws (d : Nat) (h : d < 10) :
    (digitChar d).isWhitespace = false := by
  interval_cases d <;> decide

theorem parse_digits_map (ds : List Nat) :
    ∀ a, (∀ d ∈ ds, d < 10) →
      parse_digits (ds.map digitChar) a
        = some (ds.foldl (fun x d => x * 10 + d) a) := by
  induction ds with
  | nil => intro a _; rfl
  | cons d ds ih =>
    intro a h
    have hd : d < 10 := h d (List.mem_cons_self d ds)
    simp only [List.map_cons, parse_digits, charDigit_digitChar d hd,
      List.foldl_cons]
    exact ih _ (fun x hx => h x (List.mem_cons_of_mem _ hx))

theorem dropWhile_eq_self_of_none (p : Char → Bool) (l : List Char)
    (h : ∀ c ∈ l, p c = false) : l.dropWhile p = l := by
  cases l with
  | nil => rfl
  | cons c cs => simp [List.dropWhile_cons, h c (List.mem_cons_self c cs)]

theorem trim_chars_eq_self (cs : List Char)
    (h : ∀ c ∈ cs, c.isWhitespace = false) : trim_chars cs = cs := by
  rw [trim_chars, dropWhile_eq_self_of_none _ _ h,
    dropWhile_eq_self_of_none _ _ (fun c hc => h c (List.mem_reverse.mp hc)),
    List.reverse_reverse]

/-- C10: serializing an `Age` with `build` and parsing the produced value
back yields the `Age` with the same whole seconds and zero nanoseconds; when
the duration was a whole number of seconds this is the original `Age`. The
`u64` bound on the seconds is the range of the Rust field. -/
theorem c10_age_roundtrip (a : Age) (h : a.value.secs < 2 ^ 64) :
    age_try_from (age_build a) = some ⟨⟨a.value.secs, 0⟩⟩ ∧
      (a.value.nanos = 0 → age_try_from (age_build a) = some a) := by
  have hds := natDecimalDigits_lt_ten a.value.secs
  have hnws : ∀ c ∈ (natDecimalDigits a.value.secs).map digitChar,
      c.isWhitespace = false := by
    intro c hc
    rcases List.mem_map.mp hc with ⟨d, hd, rfl⟩
    exact digitChar_not_ws d (hds d hd)
  have hne : ((natDecimalDigits a.value.secs).map digitChar).isEmpty = false := by
    rcases hl : natDecimalDigits a.value.secs with _ | ⟨d, ds⟩
    · exact absurd hl (natDecimalDigits_ne_nil _)
    · rfl
  have key : age_try_from (age_build a) = some ⟨⟨a.value.secs, 0⟩⟩ := by
    rw [age_try_from, age_build, trim_chars_eq_self _ hnws, parse_u64, if_neg (by
      rw [hne]; exact Bool.false_ne_true)]
    rw [parse_digits_map _ 0 hds, foldl_natDecimalDigits]
    have h' : a.value.secs < 18446744073709551616 := by simpa using h
    simp [h']
  refine ⟨key, fun hz => ?_⟩
  rcases a with ⟨⟨s, nn⟩⟩
  simp only at hz
  subst hz
  exact key

theorem c10_age_roundtrip_witness :
    age_try_from (age_build ⟨⟨61, 250000000⟩⟩) = some ⟨⟨61, 0⟩⟩ :=
  (c10_age_roundtrip ⟨⟨61, 250000000⟩⟩ (by norm_num)).1

end NtexH2
